import Mathlib

/-!
Shallow embedding of the contract-retrieval pipeline in `src/` of the
Contract-Intelligence-Platform repository: `data_processor.py`,
`embeddings.py` and `rag_system.py`.  Python strings are modelled as
`List Char`, floats as `ℚ`, raised exceptions as `Except String`, and the
two opaque ML collaborators (the sentence-embedding model and the
extractive-QA pipeline) as function parameters.
-/

/-- Python strings, modelled as lists of characters (Python indexes and
slices strings by code point, as `List Char` does). -/
abbrev PyStr := List Char

/-- The character class matched by Python's `re` pattern `\s` on `str`
(the Unicode whitespace set of `str.isspace`). -/
def isPySpace (c : Char) : Bool :=
  let n := c.toNat
  (decide (9 ≤ n) && decide (n ≤ 13)) ||
  (decide (28 ≤ n) && decide (n ≤ 31)) ||
  n == 32 || n == 133 || n == 160 || n == 0x1680 ||
  (decide (0x2000 ≤ n) && decide (n ≤ 0x200a)) ||
  n == 0x2028 || n == 0x2029 || n == 0x202f || n == 0x205f || n == 0x3000

/-- The character class removed by `clean_text`'s second substitution,
`[\x00-\x08\x0B\x0C\x0E-\x1F\x7F]`. -/
def isCtrlRemoved (c : Char) : Bool :=
  let n := c.toNat
  decide (n ≤ 8) || n == 11 || n == 12 ||
  (decide (14 ≤ n) && decide (n ≤ 31)) || n == 127

/-- Scanner for `re.sub(r'\s+', ' ', text)`: `inRun` records whether the
previous character belonged to a whitespace run already replaced by a
single space. -/
def collapseWsAux : Bool → List Char → List Char
  | _, [] => []
  | inRun, c :: cs =>
    if isPySpace c then
      if inRun then collapseWsAux true cs else ' ' :: collapseWsAux true cs
    else c :: collapseWsAux false cs

/-- `re.sub(r'\s+', ' ', text)`: replace every maximal run of whitespace
by a single space. -/
def collapseWs (l : List Char) : List Char := collapseWsAux false l

/-- `re.sub(r'[\x00-\x08\x0B\x0C\x0E-\x1F\x7F]', '', text)`. -/
def removeCtrl (l : List Char) : List Char :=
  l.filter (fun c => !isCtrlRemoved c)

/-- Python `str.lstrip()` (with respect to the Unicode whitespace set). -/
def pyLStrip (l : List Char) : List Char :=
  l.dropWhile isPySpace

/-- Python `str.rstrip()`. -/
def pyRStrip (l : List Char) : List Char :=
  (l.reverse.dropWhile isPySpace).reverse

/-- Python `str.strip()`. -/
def pyStrip (l : List Char) : List Char :=
  pyRStrip (pyLStrip l)

/-- A loaded document: `{'filename': ..., 'content': ...}` as produced by
`DataProcessor.load_documents`. -/
structure Document where
  filename : String
  content : PyStr

deriving DecidableEq

/-- A chunk record `{'text': ..., 'source': ..., 'chunk_id': ...}` as
produced by `DataProcessor.chunk_documents`. -/
structure Chunk where
  text : PyStr
  source : String
  chunk_id : Nat

deriving DecidableEq

/-- The `DataProcessor` configuration: characters per chunk and overlap
between consecutive chunks. -/
structure DataProcessor where
  chunk_size : Nat
  chunk_overlap : Nat

deriving DecidableEq

/-- `DataProcessor.clean_text`: collapse whitespace runs, remove the
control characters, then strip. -/
def DataProcessor.clean_text (text : PyStr) : PyStr :=
  pyStrip (removeCtrl (collapseWs text))

/-- Python `range(0, stop, step)` for `step > 0`: the multiples of `step`
below `stop`. -/
def pyRange (stop step : Nat) : List Nat :=
  (List.range ((stop + step - 1) / step)).map (· * step)

/-- One iteration of the chunk loop body: slice
`content[start_idx : min(start_idx + chunk_size, len(content))]`, strip it,
and append it with `chunk_id = len(chunks)` when non-empty. -/
def chunkLoopBody (content : PyStr) (filename : String) (chunk_size : Nat)
    (chunks : List Chunk) (start_idx : Nat) : List Chunk :=
  let end_idx := min (start_idx + chunk_size) content.length
  let chunk_text := pyStrip ((content.drop start_idx).take (end_idx - start_idx))
  if chunk_text.isEmpty then chunks
  else chunks ++ [⟨chunk_text, filename, chunks.length⟩]

/-- The inner `for start_idx in range(...)` loop of `chunk_documents`
applied to one document's cleaned content. -/
def chunkOneDoc (p : DataProcessor) (chunks : List Chunk) (doc : Document) :
    List Chunk :=
  let content := DataProcessor.clean_text doc.content
  (pyRange content.length (p.chunk_size - p.chunk_overlap)).foldl
    (chunkLoopBody content doc.filename p.chunk_size) chunks

/-- `DataProcessor.chunk_documents`: split documents into overlapping
chunks, numbering chunks globally in production order. -/
def DataProcessor.chunk_documents (p : DataProcessor) (documents : List Document) :
    List Chunk :=
  documents.foldl (chunkOneDoc p) []

/-- `DataProcessor.process_pipeline` and `load_documents` are modelled
over an abstract directory: whether the path exists, and the `.txt` files
it holds; a file whose `content` is `none` exists but cannot be read
(its read raises and `load_documents` skips it with a warning). -/
structure TxtFile where
  name : String
  content : Option PyStr

deriving DecidableEq

/-- An abstract data directory seen by `DataProcessor.load_documents`. -/
structure Directory where
  dirExists : Bool
  txtFiles : List TxtFile

deriving DecidableEq

/-- `DataProcessor.load_documents`: error when the path is missing or no
`.txt` file is found; otherwise return the readable files (unreadable
ones are caught, logged, and skipped). -/
def DataProcessor.load_documents (dir : Directory) :
    Except String (List Document) :=
  if !dir.dirExists then
    .error "FileNotFoundError: Data path does not exist"
  else if dir.txtFiles.isEmpty then
    .error "FileNotFoundError: No .txt files found"
  else
    .ok (dir.txtFiles.filterMap (fun f => f.content.map (⟨f.name, ·⟩)))

/-- `DataProcessor.process_pipeline`: load then chunk. -/
def DataProcessor.process_pipeline (p : DataProcessor) (dir : Directory) :
    Except String (List Chunk) :=
  (DataProcessor.load_documents dir).map p.chunk_documents

/-- Squared Euclidean distance between two vectors, the metric of
`faiss.IndexFlatL2` (vectors of equal dimension in the pipeline). -/
def sqL2 (u v : List ℚ) : ℚ :=
  (List.zipWith (fun a b => (a - b) * (a - b)) u v).sum

/-- The comparison used to rank candidate `(storedPosition, distance)`
pairs: ascending distance. -/
def distRel (a b : Nat × ℚ) : Prop := a.2 ≤ b.2

instance : DecidableRel distRel := fun a b =>
  inferInstanceAs (Decidable (a.2 ≤ b.2))

instance : IsTotal (Nat × ℚ) distRel := ⟨fun a b => le_total a.2 b.2⟩

instance : IsTrans (Nat × ℚ) distRel := ⟨fun _ _ _ h h2 => le_trans h h2⟩

/-- `faiss.IndexFlatL2.search` over stored vectors `vecs`: the `k`
nearest stored vectors by squared L2 distance, ascending; when `k`
exceeds the number of stored vectors, the remaining slots are padded
with label `-1` and distance `+inf` (modelled as `none`). -/
def faissSearch (vecs : List (List ℚ)) (q : List ℚ) (k : Nat) :
    List (Int × Option ℚ) :=
  let ranked := List.insertionSort distRel (vecs.map (sqL2 q)).enum
  (ranked.take k).map (fun p => ((p.1 : Int), some p.2)) ++
    List.replicate (k - vecs.length) ((-1 : Int), (none : Option ℚ))

/-- `similarity = 1 / (1 + distance)`; for the infinite padding distance
IEEE arithmetic yields `1 / (1 + inf) = 0.0`. -/
def simOfDist : Option ℚ → ℚ
  | some d => 1 / (1 + d)
  | none => 0

/-- Bounds check and read of a Python list subscription after negative
indices have been shifted: out-of-range access raises (here: `none`). -/
def pyGetAux {α : Type} (l : List α) (j : Int) : Option α :=
  if j < 0 then none else l[j.toNat]?

/-- Python list subscription `l[i]`: negative indices count from the
end; out-of-range access raises (here: `none`). -/
def pyGet {α : Type} (l : List α) (i : Int) : Option α :=
  pyGetAux l (if i < 0 then (l.length : Int) + i else i)

/-- A search result dict `{'text', 'source', 'chunk_id', 'similarity'}`. -/
structure SearchResult where
  text : PyStr
  source : String
  chunk_id : Nat
  similarity : ℚ

deriving DecidableEq

/-- The result dict built for one `(idx, distance)` pair in
`EmbeddingManager.search`'s loop. -/
def mkSearchResult (c : Chunk) (d : Option ℚ) : SearchResult :=
  ⟨c.text, c.source, c.chunk_id, simOfDist d⟩

/-- The in-memory state of an `EmbeddingManager`: the FAISS index is
`none` until a successful `build_index` or `load_index`; `metadata` is
the parallel chunk list. -/
structure EmbeddingManager where
  index : Option (List (List ℚ))
  metadata : List Chunk

deriving DecidableEq

/-- A freshly constructed `EmbeddingManager`: `self.index = None`,
`self.metadata = []`. -/
def EmbeddingManager.init : EmbeddingManager := ⟨none, []⟩

/-- `EmbeddingManager.build_index`: replace the index with a fresh one
holding `embeddings` and store `metadata` alongside. -/
def EmbeddingManager.build_index (_em : EmbeddingManager)
    (embeddings : List (List ℚ)) (metadata : List Chunk) : EmbeddingManager :=
  ⟨some embeddings, metadata⟩

/-- `EmbeddingManager.encode_documents`: one embedding per chunk text, in
order, via the opaque sentence-embedding model `encode`. -/
def encode_documents (encode : PyStr → List ℚ) (chunks : List Chunk) :
    List (List ℚ) :=
  chunks.map (fun c => encode c.text)

/-- The message of the `ValueError` raised by `search` before any build
or load. -/
def notBuiltMsg : String := "Index not built. Call build_index() first."

/-- The message of the `IndexError` Python raises on an out-of-range
list subscription (only reachable if `metadata` is shorter than the
index). -/
def indexErrMsg : String := "IndexError: list index out of range"

/-- The `for idx, distance in zip(indices[0], distances[0])` loop of
`EmbeddingManager.search`: each pair is turned into a result dict via a
raw `self.metadata[idx]` subscription. -/
def buildResults (metadata : List Chunk) :
    List (Int × Option ℚ) → Except String (List SearchResult)
  | [] => .ok []
  | p :: ps =>
    match pyGet metadata p.1 with
    | none => .error indexErrMsg
    | some c =>
      match buildResults metadata ps with
      | .error e => .error e
      | .ok rest => .ok (mkSearchResult c p.2 :: rest)

/-- `EmbeddingManager.search`: raise if no index was built or loaded,
otherwise embed the query, run the FAISS search, and map each returned
`(idx, distance)` to a result dict with the derived similarity. -/
def EmbeddingManager.search (encode : PyStr → List ℚ) (em : EmbeddingManager)
    (query : PyStr) (top_k : Nat) : Except String (List SearchResult) :=
  match em.index with
  | none => .error notBuiltMsg
  | some vecs => buildResults em.metadata (faissSearch vecs (encode query) top_k)

/-- `EmbeddingManager.load_index`: the two persisted files either are
both present (holding a vector list and a chunk list) or the load raises
`FileNotFoundError`. -/
def EmbeddingManager.load_index (_em : EmbeddingManager)
    (stored : Option (List (List ℚ) × List Chunk)) :
    Except String EmbeddingManager :=
  match stored with
  | none => .error "FileNotFoundError: Index files not found"
  | some (vecs, md) => .ok ⟨some vecs, md⟩

/-- The `config` dictionary fields the pipeline reads at query and build
time (`data.chunk_size`, `data.chunk_overlap`, `rag.top_k`,
`rag.similarity_threshold`). -/
structure RagConfig where
  chunk_size : Nat
  chunk_overlap : Nat
  top_k : Nat
  similarity_threshold : ℚ

deriving DecidableEq

/-- The state of a `ContractRAG` instance. -/
structure ContractRAG where
  config : RagConfig
  data_processor : DataProcessor
  embedding_manager : EmbeddingManager

deriving DecidableEq

/-- `ContractRAG.__init__`: wire the data processor from the config; no
index is built or loaded yet. -/
def ContractRAG.init (config : RagConfig) : ContractRAG :=
  ⟨config, ⟨config.chunk_size, config.chunk_overlap⟩, EmbeddingManager.init⟩

/-- `ContractRAG.build_knowledge_base`: process the documents, encode
them, and build the FAISS index (the subsequent `save_index` writes to
disk and does not change the in-memory state). -/
def ContractRAG.build_knowledge_base (encode : PyStr → List ℚ)
    (rag : ContractRAG) (dir : Directory) : Except String ContractRAG :=
  match rag.data_processor.process_pipeline dir with
  | .error e => .error e
  | .ok chunks =>
    let embeddings := encode_documents encode chunks
    .ok { rag with
          embedding_manager :=
            rag.embedding_manager.build_index embeddings chunks }

/-- `ContractRAG.load_knowledge_base`: delegate to
`EmbeddingManager.load_index` with the configured paths. -/
def ContractRAG.load_knowledge_base (rag : ContractRAG)
    (stored : Option (List (List ℚ) × List Chunk)) :
    Except String ContractRAG :=
  match rag.embedding_manager.load_index stored with
  | .error e => .error e
  | .ok em => .ok { rag with embedding_manager := em }

/-- `ContractRAG.retrieve_context`: default `top_k` from
`config['rag']['top_k']` when the argument is `None`, search, then keep
the results with `similarity >= config['rag']['similarity_threshold']`. -/
def ContractRAG.retrieve_context (encode : PyStr → List ℚ)
    (rag : ContractRAG) (query : PyStr) (top_k : Option Nat) :
    Except String (List SearchResult) :=
  let k := top_k.getD rag.config.top_k
  match rag.embedding_manager.search encode query k with
  | .error e => .error e
  | .ok results =>
    .ok (results.filter
      (fun r => rag.config.similarity_threshold ≤ r.similarity))

/-- One entry of the `context` field of an answer dict. -/
structure ContextEntry where
  text : PyStr
  source : String
  similarity : ℚ

deriving DecidableEq

/-- The answer dict `{'answer', 'confidence', 'context', 'sources'}`. -/
structure AnswerResult where
  answer : PyStr
  confidence : ℚ
  context : List ContextEntry
  sources : List String

deriving DecidableEq

/-- The fixed fallback returned when no context chunk clears the
threshold. -/
def noRelevantAnswer : AnswerResult :=
  ⟨"No relevant information found in the contract documents.".toList,
   0, [], []⟩

/-- The degraded result returned when the QA pipeline raises `e`. -/
def qaErrorAnswer (e : PyStr) : AnswerResult :=
  ⟨"Error generating answer: ".toList ++ e, 0, [], []⟩

/-- `" ".join(chunk['text'] for chunk in context_chunks)`. -/
def joinContext (context_chunks : List SearchResult) : PyStr :=
  List.intercalate [' '] (context_chunks.map (·.text))

/-- The context entry built for one retrieved chunk:
`chunk['text'][:200] + "..."` with source and similarity. -/
def truncEntry (c : SearchResult) : ContextEntry :=
  ⟨c.text.take 200 ++ "...".toList, c.source, c.similarity⟩

/-- The answer-synthesis part of `ContractRAG.answer_question` (after
retrieval): fallback on empty context, otherwise join the chunk texts,
run the opaque QA pipeline `qa`, and either shape its output or capture
its exception in the `answer` field. -/
def synthesize (qa : PyStr → PyStr → Except PyStr (PyStr × ℚ))
    (question : PyStr) (context_chunks : List SearchResult) : AnswerResult :=
  if context_chunks.isEmpty then noRelevantAnswer
  else
    match qa question (joinContext context_chunks) with
    | .ok (ans, score) =>
      ⟨ans, score, context_chunks.map truncEntry,
       (context_chunks.map (·.source)).dedup⟩
    | .error e => qaErrorAnswer e

/-- `ContractRAG.answer_question`: retrieve context with the given
`top_k` (Python default argument `3`), then synthesize; search-time
exceptions propagate, QA-time exceptions are captured by `synthesize`. -/
def ContractRAG.answer_question (encode : PyStr → List ℚ)
    (qa : PyStr → PyStr → Except PyStr (PyStr × ℚ)) (rag : ContractRAG)
    (question : PyStr) (top_k : Nat := 3) : Except String AnswerResult :=
  match rag.retrieve_context encode question (some top_k) with
  | .error e => .error e
  | .ok context_chunks => .ok (synthesize qa question context_chunks)

/-- The chunk texts of one document as the spec describes them: clean the
content (collapse whitespace runs to single spaces, remove non-printable
control characters, trim), then take the windows of `chunk_size`
characters at offsets `0, step, 2*step, ...` with
`step = chunk_size - chunk_overlap`, trim each window and discard the
empty ones. -/
def specDocChunks (chunk_size chunk_overlap : Nat) (d : Document) : List PyStr :=
  let cleaned := pyStrip (removeCtrl (collapseWs d.content))
  ((pyRange cleaned.length (chunk_size - chunk_overlap)).map
    (fun s => pyStrip ((cleaned.drop s).take chunk_size))).filter
    (fun t => !t.isEmpty)

/-- Spec-side chunk texts of a document list, document by document. -/
def specChunkTexts (chunk_size chunk_overlap : Nat) (docs : List Document) :
    List PyStr :=
  docs.flatMap (specDocChunks chunk_size chunk_overlap)

/-- Spec-side `(text, source)` pairs of one document. -/
def specDocPairs (chunk_size chunk_overlap : Nat) (d : Document) :
    List (PyStr × String) :=
  (specDocChunks chunk_size chunk_overlap d).map (fun t => (t, d.filename))

/-- Spec-side `(text, source)` pairs of a document list. -/
def specPairs (chunk_size chunk_overlap : Nat) (docs : List Document) :
    List (PyStr × String) :=
  docs.flatMap (specDocPairs chunk_size chunk_overlap)

/-- Turn `(text, source)` pairs into chunks numbered consecutively from
`n`. -/
def numberFrom (n : Nat) : List (PyStr × String) → List Chunk
  | [] => []
  | p :: ps => ⟨p.1, p.2, n⟩ :: numberFrom (n + 1) ps

/-- The relation between an `(idx, distance)` pair handed to the result
loop and the result dict it produces. -/
def resultRel (md : List Chunk) (p : Int × Option ℚ) (r : SearchResult) : Prop :=
  ∃ c, pyGet md p.1 = some c ∧ r = mkSearchResult c p.2

deriving instance DecidableEq for Except

attribute [local semireducible] Rat.mul Rat.inv Rat.add Rat.sub

/-- A toy deterministic embedding model for concrete instances: a
one-dimensional vector holding the text length. -/
def encLen : PyStr → List ℚ := fun s => [(s.length : ℚ)]

/-- A toy QA pipeline that always succeeds. -/
def qaOk : PyStr → PyStr → Except PyStr (PyStr × ℚ) :=
  fun _ _ => .ok ("ans".toList, 1)

/-- A toy QA pipeline that always raises. -/
def qaBoom : PyStr → PyStr → Except PyStr (PyStr × ℚ) :=
  fun _ _ => .error "boom".toList

/-- Five chunks with distinct sources, parallel to five stored vectors. -/
def chunksFive : List Chunk :=
  [⟨"c0".toList, "f0", 0⟩, ⟨"c1".toList, "f1", 1⟩, ⟨"c2".toList, "f2", 2⟩,
   ⟨"c3".toList, "f3", 3⟩, ⟨"c4".toList, "f4", 4⟩]

/-- A built instance whose configured default `top_k` is 5 and whose
threshold is 0. -/
def ragFive : ContractRAG :=
  ⟨⟨512, 100, 5, 0⟩, ⟨512, 100⟩,
   ⟨some [[2], [3], [4], [5], [6]], chunksFive⟩⟩

/-- A built two-chunk instance whose threshold `11/10` exceeds every
achievable similarity. -/
def ragHigh : ContractRAG :=
  ⟨⟨512, 100, 2, 11 / 10⟩, ⟨512, 100⟩,
   ⟨some [[2], [3]], [⟨"c0".toList, "f0", 0⟩, ⟨"c1".toList, "f1", 1⟩]⟩⟩

/-- The two results `search` returns on `ragHigh`'s (and `ragFive`'s
first two) vectors for the one-character query. -/
def rsTwoW : List SearchResult :=
  [mkSearchResult ⟨"c0".toList, "f0", 0⟩ (some 1),
   mkSearchResult ⟨"c1".toList, "f1", 1⟩ (some 4)]

/-- The two-vector `EmbeddingManager` used as a search witness. -/
def emTwo : EmbeddingManager :=
  ⟨some [[2], [3]], [⟨"c0".toList, "f0", 0⟩, ⟨"c1".toList, "f1", 1⟩]⟩

/-- A small configuration for the build/load witnesses. -/
def cfgW : RagConfig := ⟨4, 2, 5, 0⟩

/-- A directory with one readable four-character `.txt` file. -/
def dirW : Directory := ⟨true, [⟨"a.txt", some "abcd".toList⟩]⟩

/-- The chunks the pipeline produces from `dirW` (size 4, overlap 2). -/
def chunksW : List Chunk :=
  [⟨"abcd".toList, "a.txt", 0⟩, ⟨"cd".toList, "a.txt", 1⟩]

/-- The instance state after building from `dirW`. -/
def ragBuiltW : ContractRAG := ⟨cfgW, ⟨4, 2⟩, ⟨some [[4], [2]], chunksW⟩⟩

/-- The instance state after loading a stored pair. -/
def ragLoadedW : ContractRAG :=
  ⟨cfgW, ⟨4, 2⟩, ⟨some [[7]], [⟨"x".toList, "s.txt", 0⟩]⟩⟩

/-- A previously built instance, used to observe what a failing (or
silently succeeding) rebuild does to prior state. -/
def ragPrior : ContractRAG :=
  ⟨⟨4, 2, 5, 0⟩, ⟨4, 2⟩, ⟨some [[9]], [⟨"old".toList, "o.txt", 0⟩]⟩⟩

/-- The answer the concrete shape witness produces. -/
def rW : AnswerResult :=
  ⟨"ans".toList, 1, rsTwoW.map truncEntry, (rsTwoW.map (·.source)).dedup⟩

/-- A one-chunk built instance with threshold 0. -/
def ragAbc : ContractRAG :=
  ⟨⟨512, 100, 5, 0⟩, ⟨512, 100⟩, ⟨some [[2]], [⟨"abc".toList, "a.txt", 0⟩]⟩⟩

/-- A two-vector manager queried with `top_k = 3` to exercise padding. -/
def emPad : EmbeddingManager :=
  ⟨some [[2], [5]], [⟨"A".toList, "fA", 0⟩, ⟨"B".toList, "fB", 1⟩]⟩

/-- The three results `emPad.search` returns for the one-character
query with `top_k = 3`: the third comes from the `-1` padding slot. -/
def rsPad : List SearchResult :=
  [mkSearchResult ⟨"A".toList, "fA", 0⟩ (some 1),
   mkSearchResult ⟨"B".toList, "fB", 1⟩ (some 16),
   mkSearchResult ⟨"B".toList, "fB", 1⟩ none]

theorem dropWhile_dropWhile (p : Char → Bool) (l : List Char) :
    (l.dropWhile p).dropWhile p = l.dropWhile p := by
  cases h : l.dropWhile p with
  | nil => rfl
  | cons a t =>
    have hh := List.head?_dropWhile_not p l
    rw [h] at hh
    simp only [List.head?_cons] at hh
    simp [List.dropWhile_cons, hh]

theorem pyRStrip_pyRStrip (l : List Char) : pyRStrip (pyRStrip l) = pyRStrip l := by
  unfold pyRStrip
  rw [List.reverse_reverse, dropWhile_dropWhile]

theorem pyLStrip_pyRStrip_pyLStrip (l : List Char) :
    pyLStrip (pyRStrip (pyLStrip l)) = pyRStrip (pyLStrip l) := by
  cases h : pyLStrip l with
  | nil => simp [pyRStrip, pyLStrip]
  | cons a t =>
    have hh := List.head?_dropWhile_not isPySpace l
    rw [show l.dropWhile isPySpace = a :: t from h] at hh
    simp only [List.head?_cons] at hh
    show pyLStrip (pyRStrip (a :: t)) = pyRStrip (a :: t)
    unfold pyRStrip
    rw [List.reverse_cons, List.dropWhile_append]
    by_cases he : (t.reverse.dropWhile isPySpace).isEmpty
    · simp only [he, if_pos]
      simp [pyLStrip, List.dropWhile_cons, hh]
    · simp only [he, if_neg, Bool.false_eq_true, not_false_iff]
      rw [List.reverse_append]
      simp [pyLStrip, List.dropWhile_cons, hh]

theorem pyStrip_idem (l : List Char) : pyStrip (pyStrip l) = pyStrip l := by
  unfold pyStrip
  rw [pyLStrip_pyRStrip_pyLStrip, pyRStrip_pyRStrip]

theorem numberFrom_length (n : Nat) (l : List (PyStr × String)) :
    (numberFrom n l).length = l.length := by
  induction l generalizing n with
  | nil => rfl
  | cons p ps ih => simp [numberFrom, ih]

theorem numberFrom_append (n : Nat) (l₁ l₂ : List (PyStr × String)) :
    numberFrom n (l₁ ++ l₂) = numberFrom n l₁ ++ numberFrom (n + l₁.length) l₂ := by
  induction l₁ generalizing n with
  | nil => simp [numberFrom]
  | cons p ps ih =>
    simp only [List.cons_append, numberFrom, List.length_cons, List.append_eq]
    rw [ih, show n + 1 + ps.length = n + (ps.length + 1) from by omega]

theorem window_take (content : PyStr) (cs s : Nat) :
    (content.drop s).take (min (s + cs) content.length - s) =
      (content.drop s).take cs := by
  rcases Nat.le_total (s + cs) content.length with h | h
  · rw [Nat.min_eq_left h]
    congr 1
    omega
  · rw [Nat.min_eq_right h]
    rw [List.take_of_length_le
        (show (content.drop s).length ≤ content.length - s from by
          rw [List.length_drop]),
      List.take_of_length_le
        (show (content.drop s).length ≤ cs from by
          rw [List.length_drop]; omega)]

theorem foldl_chunkLoopBody (content : PyStr) (fn : String) (cs : Nat)
    (offs : List Nat) (acc : List Chunk) :
    offs.foldl (chunkLoopBody content fn cs) acc =
      acc ++ numberFrom acc.length
        (((offs.map (fun s => pyStrip ((content.drop s).take cs))).filter
            (fun t => !t.isEmpty)).map (fun t => (t, fn))) := by
  induction offs generalizing acc with
  | nil => simp [numberFrom]
  | cons o os ih =>
    simp only [List.foldl_cons, List.map_cons]
    have hw : chunkLoopBody content fn cs acc o =
        if (pyStrip ((content.drop o).take cs)).isEmpty then acc
        else acc ++ [⟨pyStrip ((content.drop o).take cs), fn, acc.length⟩] := by
      simp only [chunkLoopBody, window_take]
    by_cases he : (pyStrip ((content.drop o).take cs)).isEmpty
    · rw [hw, if_pos he, ih]
      rw [List.filter_cons_of_neg (by simp [he])]
    · rw [hw, if_neg he, ih]
      rw [List.filter_cons_of_pos (by simp [he])]
      simp only [List.map_cons, numberFrom, List.length_append, List.length_cons,
        List.length_nil, List.append_assoc, List.singleton_append]

theorem chunkOneDoc_eq (p : DataProcessor) (acc : List Chunk) (d : Document) :
    chunkOneDoc p acc d =
      acc ++ numberFrom acc.length
        (specDocPairs p.chunk_size p.chunk_overlap d) := by
  unfold chunkOneDoc specDocPairs specDocChunks DataProcessor.clean_text
  rw [foldl_chunkLoopBody]

theorem specPairs_cons (cs co : Nat) (d : Document) (docs : List Document) :
    specPairs cs co (d :: docs) = specDocPairs cs co d ++ specPairs cs co docs := by
  simp [specPairs]

theorem specChunkTexts_cons (cs co : Nat) (d : Document) (docs : List Document) :
    specChunkTexts cs co (d :: docs) =
      specDocChunks cs co d ++ specChunkTexts cs co docs := by
  simp [specChunkTexts]

theorem foldl_chunkOneDoc (p : DataProcessor) (docs : List Document)
    (acc : List Chunk) :
    docs.foldl (chunkOneDoc p) acc =
      acc ++ numberFrom acc.length (specPairs p.chunk_size p.chunk_overlap docs) := by
  induction docs generalizing acc with
  | nil => simp [specPairs, numberFrom]
  | cons d docs ih =>
    simp only [List.foldl_cons]
    rw [chunkOneDoc_eq, ih, specPairs_cons, numberFrom_append, List.length_append,
      numberFrom_length, List.append_assoc]

theorem chunk_documents_eq (p : DataProcessor) (docs : List Document) :
    p.chunk_documents docs =
      numberFrom 0 (specPairs p.chunk_size p.chunk_overlap docs) := by
  unfold DataProcessor.chunk_documents
  rw [foldl_chunkOneDoc]
  rfl

theorem numberFrom_map_text (n : Nat) (l : List (PyStr × String)) :
    (numberFrom n l).map (·.text) = l.map Prod.fst := by
  induction l generalizing n with
  | nil => rfl
  | cons p ps ih => simp [numberFrom, ih]

theorem specPairs_map_fst (cs co : Nat) (docs : List Document) :
    (specPairs cs co docs).map Prod.fst = specChunkTexts cs co docs := by
  induction docs with
  | nil => rfl
  | cons d docs ih =>
    rw [specPairs_cons, specChunkTexts_cons, List.map_append, ih]
    congr 1
    rw [specDocPairs, List.map_map,
      show (Prod.fst ∘ fun t : PyStr => (t, d.filename)) = id from rfl,
      List.map_id]

theorem numberFrom_getElem? (l : List (PyStr × String)) (n i : Nat) (c : Chunk)
    (hc : (numberFrom n l)[i]? = some c) :
    c.chunk_id = n + i ∧ c.text ∈ l.map Prod.fst := by
  induction l generalizing n i with
  | nil => simp [numberFrom] at hc
  | cons p ps ih =>
    cases i with
    | zero =>
      simp only [numberFrom, List.getElem?_cons_zero, Option.some_inj] at hc
      subst hc
      simp [numberFrom]
    | succ j =>
      simp only [numberFrom, List.getElem?_cons_succ] at hc
      obtain ⟨h1, h2⟩ := ih (n + 1) j hc
      refine ⟨by omega, ?_⟩
      simp only [List.map_cons, List.mem_cons]
      exact Or.inr h2

theorem specChunkTexts_mem (cs co : Nat) (docs : List Document) (t : PyStr)
    (ht : t ∈ specChunkTexts cs co docs) : pyStrip t = t ∧ t ≠ [] := by
  rw [specChunkTexts, List.mem_flatMap] at ht
  obtain ⟨d, _, ht⟩ := ht
  rw [specDocChunks, List.mem_filter] at ht
  obtain ⟨htm, hne⟩ := ht
  rw [List.mem_map] at htm
  obtain ⟨s, _, rfl⟩ := htm
  refine ⟨pyStrip_idem _, ?_⟩
  intro h
  rw [h] at hne
  simp at hne

/-- C5: for `chunk_overlap < chunk_size`, `chunk_documents` produces, per
document in order, exactly the trimmed non-empty windows of `chunk_size`
characters taken at offsets `0, step, 2*step, ...` over the cleaned
(whitespace-collapsed, control-stripped, trimmed) content.  Determinism
is inherent: the model is a pure function of the documents and the
parameters. -/
theorem chunk_documents_refines_spec (p : DataProcessor) (docs : List Document)
    (h : p.chunk_overlap < p.chunk_size) :
    (p.chunk_documents docs).map (·.text) =
      specChunkTexts p.chunk_size p.chunk_overlap docs := by
  rw [chunk_documents_eq, numberFrom_map_text, specPairs_map_fst]

theorem chunk_documents_refines_spec_witness :
    (2 : Nat) < 4 ∧
      ((DataProcessor.mk 4 2).chunk_documents
          [⟨"a.txt", "hello world".toList⟩]).map (·.text) =
        specChunkTexts 4 2 [⟨"a.txt", "hello world".toList⟩] :=
  ⟨by decide,
   chunk_documents_refines_spec ⟨4, 2⟩ [⟨"a.txt", "hello world".toList⟩]
     (by decide)⟩

/-- C6: for `chunk_overlap < chunk_size`, every chunk returned by one
`chunk_documents` call carries `chunk_id` equal to its 0-based position
in the returned sequence (dense, never reset across document
boundaries), and its text is non-empty after trimming. -/
theorem chunk_ids_dense_and_nonempty (p : DataProcessor) (docs : List Document)
    (h : p.chunk_overlap < p.chunk_size) (i : Nat) (c : Chunk)
    (hc : (p.chunk_documents docs)[i]? = some c) :
    c.chunk_id = i ∧ pyStrip c.text ≠ [] := by
  rw [chunk_documents_eq] at hc
  obtain ⟨hid, hmem⟩ := numberFrom_getElem? _ 0 i c hc
  rw [specPairs_map_fst] at hmem
  obtain ⟨hfix, hne⟩ := specChunkTexts_mem _ _ _ _ hmem
  refine ⟨by omega, ?_⟩
  rw [hfix]
  exact hne

theorem chunk_ids_dense_and_nonempty_witness :
    (2 : Nat) < 4 ∧
      ((DataProcessor.mk 4 2).chunk_documents
          [⟨"a.txt", "hello world".toList⟩])[1]? =
        some ⟨"llo".toList, "a.txt", 1⟩ ∧
      (⟨"llo".toList, "a.txt", 1⟩ : Chunk).chunk_id = 1 ∧
      pyStrip (⟨"llo".toList, "a.txt", 1⟩ : Chunk).text ≠ [] :=
  ⟨by decide, by decide,
   chunk_ids_dense_and_nonempty ⟨4, 2⟩ [⟨"a.txt", "hello world".toList⟩]
     (by decide) 1 ⟨"llo".toList, "a.txt", 1⟩ (by decide)⟩

theorem buildResults_forall2 (md : List Chunk) (ps : List (Int × Option ℚ))
    (rs : List SearchResult) (h : buildResults md ps = .ok rs) :
    List.Forall₂ (resultRel md) ps rs := by
  induction ps generalizing rs with
  | nil =>
    simp only [buildResults] at h
    cases h
    exact List.Forall₂.nil
  | cons p ps ih =>
    simp only [buildResults] at h
    cases hg : pyGet md p.1 with
    | none => rw [hg] at h; cases h
    | some c =>
      rw [hg] at h
      cases hb : buildResults md ps with
      | error e => rw [hb] at h; cases h
      | ok rest =>
        rw [hb] at h
        cases h
        exact List.Forall₂.cons ⟨c, hg, rfl⟩ (ih rest hb)

theorem buildResults_error (md : List Chunk) (ps : List (Int × Option ℚ))
    (e : String) (h : buildResults md ps = .error e) : e = indexErrMsg := by
  induction ps with
  | nil => simp only [buildResults] at h; cases h
  | cons p ps ih =>
    simp only [buildResults] at h
    cases hg : pyGet md p.1 with
    | none => rw [hg] at h; cases h; rfl
    | some c =>
      rw [hg] at h
      cases hb : buildResults md ps with
      | error e2 =>
        rw [hb] at h
        cases h
        exact ih hb
      | ok rest => rw [hb] at h; cases h

theorem forall2_mem_right {α β : Type} {R : α → β → Prop} {l₁ : List α}
    {l₂ : List β} (h : List.Forall₂ R l₁ l₂) (b : β) (hb : b ∈ l₂) :
    ∃ a ∈ l₁, R a b := by
  induction h with
  | nil => cases hb
  | cons hr ht ih =>
    rcases List.mem_cons.mp hb with rfl | hb2
    · exact ⟨_, List.mem_cons_self _ _, hr⟩
    · obtain ⟨a, ha, hR⟩ := ih hb2
      exact ⟨a, List.mem_cons_of_mem _ ha, hR⟩

theorem forall2_map_sim (md : List Chunk) (ps : List (Int × Option ℚ))
    (rs : List SearchResult) (h : List.Forall₂ (resultRel md) ps rs) :
    rs.map (·.similarity) = ps.map (fun p => simOfDist p.2) := by
  induction h with
  | nil => rfl
  | cons hr _ ih =>
    obtain ⟨c, _, rfl⟩ := hr
    simp only [List.map_cons, ih, mkSearchResult]

theorem sqL2_nonneg (u v : List ℚ) : 0 ≤ sqL2 u v := by
  unfold sqL2
  induction u generalizing v with
  | nil => simp
  | cons a u ih =>
    cases v with
    | nil => simp
    | cons b v =>
      simp only [List.zipWith_cons_cons, List.sum_cons]
      exact add_nonneg (mul_self_nonneg _) (ih v)

theorem enum_snd_mem (vecs : List (List ℚ)) (q : List ℚ) (a : Nat × ℚ)
    (ha : a ∈ (vecs.map (sqL2 q)).enum) : ∃ v ∈ vecs, a.2 = sqL2 q v := by
  have h2 := List.mem_enum_iff_getElem?.mp ha
  have h3 : a.2 ∈ vecs.map (sqL2 q) := List.getElem?_mem h2
  rw [List.mem_map] at h3
  obtain ⟨v, hv, he⟩ := h3
  exact ⟨v, hv, he.symm⟩

theorem faissSearch_mem (vecs : List (List ℚ)) (q : List ℚ) (k : Nat)
    (p : Int × Option ℚ) (hp : p ∈ faissSearch vecs q k) :
    (∃ v ∈ vecs, p.2 = some (sqL2 q v)) ∨ p.2 = none := by
  unfold faissSearch at hp
  rw [List.mem_append] at hp
  rcases hp with hp | hp
  · left
    rw [List.mem_map] at hp
    obtain ⟨a, ha, rfl⟩ := hp
    have ha2 : a ∈ List.insertionSort distRel (vecs.map (sqL2 q)).enum :=
      List.take_subset _ _ ha
    have ha3 : a ∈ (vecs.map (sqL2 q)).enum :=
      (List.perm_insertionSort distRel _).mem_iff.mp ha2
    obtain ⟨v, hv, he⟩ := enum_snd_mem vecs q a ha3
    exact ⟨v, hv, by rw [he]⟩
  · right
    have := List.eq_of_mem_replicate hp
    rw [this]

theorem simOfDist_pos (d : ℚ) (hd : 0 ≤ d) : 0 < simOfDist (some d) := by
  simp only [simOfDist]
  have h1 : (0 : ℚ) < 1 + d := by linarith
  exact div_pos one_pos h1

theorem simOfDist_le_one (d : ℚ) (hd : 0 ≤ d) : simOfDist (some d) ≤ 1 := by
  simp only [simOfDist]
  rw [div_le_one (by linarith)]
  linarith

theorem search_ok_elim (encode : PyStr → List ℚ) (em : EmbeddingManager)
    (query : PyStr) (k : Nat) (vecs : List (List ℚ)) (rs : List SearchResult)
    (hidx : em.index = some vecs) (h : em.search encode query k = .ok rs) :
    buildResults em.metadata (faissSearch vecs (encode query) k) = .ok rs := by
  unfold EmbeddingManager.search at h
  rw [hidx] at h
  exact h

theorem search_ok_sim_bounds (encode : PyStr → List ℚ) (em : EmbeddingManager)
    (query : PyStr) (k : Nat) (rs : List SearchResult)
    (h : em.search encode query k = .ok rs) :
    ∀ r ∈ rs, 0 ≤ r.similarity ∧ r.similarity ≤ 1 := by
  cases hidx : em.index with
  | none =>
    unfold EmbeddingManager.search at h
    rw [hidx] at h
    cases h
  | some vecs =>
    have hb := search_ok_elim encode em query k vecs rs hidx h
    have f2 := buildResults_forall2 _ _ _ hb
    intro r hr
    obtain ⟨p, hp, c, hg, rfl⟩ := forall2_mem_right f2 r hr
    rcases faissSearch_mem vecs (encode query) k p hp with ⟨v, _, hd⟩ | hd
    · have h0 : 0 ≤ sqL2 (encode query) v := sqL2_nonneg _ _
      have h1 := simOfDist_pos _ h0
      have h2 := simOfDist_le_one _ h0
      rw [mkSearchResult, hd]
      exact ⟨le_of_lt h1, h2⟩
    · rw [mkSearchResult, hd]
      simp [simOfDist]

theorem ranked_snd_nonneg (vecs : List (List ℚ)) (q : List ℚ) (k : Nat)
    (a : Nat × ℚ)
    (ha : a ∈ (List.insertionSort distRel (vecs.map (sqL2 q)).enum).take k) :
    0 ≤ a.2 := by
  have ha2 := List.take_subset _ _ ha
  have ha3 := (List.perm_insertionSort distRel _).mem_iff.mp ha2
  obtain ⟨v, _, he⟩ := enum_snd_mem vecs q a ha3
  rw [he]
  exact sqL2_nonneg _ _

theorem faissSearch_pairwise (vecs : List (List ℚ)) (q : List ℚ) (k : Nat) :
    List.Pairwise (fun a b : Int × Option ℚ => simOfDist b.2 ≤ simOfDist a.2)
      (faissSearch vecs q k) := by
  unfold faissSearch
  rw [List.pairwise_append]
  refine ⟨?_, ?_, ?_⟩
  · rw [List.pairwise_map]
    have hs : List.Pairwise distRel
        (List.insertionSort distRel (vecs.map (sqL2 q)).enum) :=
      List.sorted_insertionSort distRel _
    have ht : List.Pairwise distRel
        ((List.insertionSort distRel (vecs.map (sqL2 q)).enum).take k) :=
      hs.sublist (List.take_sublist _ _)
    refine ht.imp_of_mem ?_
    intro a b ha hb hab
    have h0 : 0 ≤ a.2 := ranked_snd_nonneg vecs q k a ha
    simp only [simOfDist]
    exact one_div_le_one_div_of_le (by linarith) (by
      have : a.2 ≤ b.2 := hab
      linarith)
  · exact List.pairwise_replicate.mpr (Or.inr (le_refl _))
  · intro a ha b hb
    rw [List.mem_map] at ha
    obtain ⟨a0, ha0, rfl⟩ := ha
    have h0 : 0 ≤ a0.2 := ranked_snd_nonneg vecs q k a0 ha0
    have hb2 := List.eq_of_mem_replicate hb
    rw [hb2]
    simp only [simOfDist]
    have : (0 : ℚ) < 1 + a0.2 := by linarith
    positivity

/-- C1: `retrieve_context` returns exactly the results of
`search(query, topK)` whose similarity is `>=` the configured threshold,
in the same nearest-first order, as a plain (possibly empty) list rather
than an error; with `threshold = 1.1` the filtered list is always empty,
since every similarity is at most 1. -/
theorem retrieve_context_filters_and_threshold (encode : PyStr → List ℚ)
    (rag : ContractRAG) (query : PyStr) (top_k : Option Nat)
    (rs : List SearchResult)
    (h : rag.embedding_manager.search encode query
        (top_k.getD rag.config.top_k) = .ok rs) :
    rag.retrieve_context encode query top_k =
      .ok (rs.filter (fun r => rag.config.similarity_threshold ≤ r.similarity)) ∧
    (rag.config.similarity_threshold = 11 / 10 →
      rag.retrieve_context encode query top_k = .ok []) := by
  have hmain : rag.retrieve_context encode query top_k =
      .ok (rs.filter (fun r => rag.config.similarity_threshold ≤ r.similarity)) := by
    simp only [ContractRAG.retrieve_context, h]
  refine ⟨hmain, fun ht => ?_⟩
  rw [hmain]
  congr 1
  rw [List.filter_eq_nil_iff]
  intro r hr
  have hb := search_ok_sim_bounds encode rag.embedding_manager query _ rs h r hr
  rw [ht]
  simp only [decide_eq_true_eq]
  intro hcon
  have h2 := hb.2
  linarith

/-- C2: every result of a successful `search` on a built index carries
`similarity = simOfDist d` for the distance `d` reported by the index —
either the squared Euclidean distance to a stored vector or the infinite
padding distance — and whenever that distance is an actual non-negative
number `x`, the similarity equals `1 / (1 + x)` and lies in `(0, 1]`;
similarities are non-increasing as result rank increases. -/
theorem search_similarity_spec (encode : PyStr → List ℚ)
    (em : EmbeddingManager) (query : PyStr) (k : Nat)
    (vecs : List (List ℚ)) (rs : List SearchResult)
    (hidx : em.index = some vecs) (h : em.search encode query k = .ok rs) :
    (∀ r ∈ rs, ∃ d : Option ℚ,
        ((∃ v ∈ vecs, d = some (sqL2 (encode query) v)) ∨ d = none) ∧
        r.similarity = simOfDist d ∧
        ∀ x : ℚ, d = some x → 0 ≤ x ∧ r.similarity = 1 / (1 + x) ∧
          0 < r.similarity ∧ r.similarity ≤ 1) ∧
    List.Pairwise (fun a b => b.similarity ≤ a.similarity) rs := by
  have hb := search_ok_elim encode em query k vecs rs hidx h
  have f2 := buildResults_forall2 _ _ _ hb
  constructor
  · intro r hr
    obtain ⟨p, hp, c, hg, rfl⟩ := forall2_mem_right f2 r hr
    refine ⟨p.2, faissSearch_mem vecs (encode query) k p hp, rfl, ?_⟩
    intro x hx
    rcases faissSearch_mem vecs (encode query) k p hp with ⟨v, _, hd⟩ | hd
    · rw [hd] at hx
      rw [Option.some_inj] at hx
      subst hx
      have h0 : 0 ≤ sqL2 (encode query) v := sqL2_nonneg _ _
      refine ⟨h0, ?_, ?_, ?_⟩
      · show simOfDist p.2 = _
        rw [hd]
        simp [simOfDist]
      · show 0 < simOfDist p.2
        rw [hd]
        exact simOfDist_pos _ h0
      · show simOfDist p.2 ≤ 1
        rw [hd]
        exact simOfDist_le_one _ h0
    · rw [hd] at hx
      cases hx
  · have hmap := forall2_map_sim _ _ _ f2
    have hp := faissSearch_pairwise vecs (encode query) k
    have h1 : List.Pairwise (fun x y : ℚ => y ≤ x)
        ((faissSearch vecs (encode query) k).map (fun p => simOfDist p.2)) :=
      List.pairwise_map.mpr hp
    rw [← hmap] at h1
    exact List.pairwise_map.mp h1

theorem build_sets_index (encode : PyStr → List ℚ) (rag : ContractRAG)
    (dir : Directory) (rag1 : ContractRAG)
    (h : rag.build_knowledge_base encode dir = .ok rag1) :
    ∃ vecs, rag1.embedding_manager.index = some vecs := by
  simp only [ContractRAG.build_knowledge_base] at h
  cases hp : rag.data_processor.process_pipeline dir with
  | error e => rw [hp] at h; cases h
  | ok chunks =>
    rw [hp] at h
    simp only [Except.ok.injEq] at h
    subst h
    exact ⟨_, rfl⟩

theorem load_sets_index (rag : ContractRAG)
    (stored : Option (List (List ℚ) × List Chunk)) (rag2 : ContractRAG)
    (h : rag.load_knowledge_base stored = .ok rag2) :
    ∃ vecs, rag2.embedding_manager.index = some vecs := by
  cases stored with
  | none =>
    simp only [ContractRAG.load_knowledge_base, EmbeddingManager.load_index] at h
    cases h
  | some pr =>
    obtain ⟨vecs, md⟩ := pr
    simp only [ContractRAG.load_knowledge_base, EmbeddingManager.load_index,
      Except.ok.injEq] at h
    subst h
    exact ⟨vecs, rfl⟩

theorem search_some_ne_notBuilt (encode : PyStr → List ℚ)
    (em : EmbeddingManager) (query : PyStr) (k : Nat)
    (vecs : List (List ℚ)) (hidx : em.index = some vecs) :
    em.search encode query k ≠ .error notBuiltMsg := by
  unfold EmbeddingManager.search
  rw [hidx]
  intro hcon
  have h2 := buildResults_error _ _ _ hcon
  exact absurd h2 (by decide)

/-- C3: before any successful build or load (`index` is `None`), `search`
raises the not-built `ValueError` and `answer_question` propagates that
error instead of returning a result; any instance produced by a
successful `build_knowledge_base` or `load_knowledge_base` holds an
index, and its `search` never raises the not-built error. -/
theorem not_built_behaviour (encode : PyStr → List ℚ)
    (qa : PyStr → PyStr → Except PyStr (PyStr × ℚ))
    (rag ragB ragL : ContractRAG) (query question : PyStr) (k k2 : Nat)
    (dir : Directory) (stored : Option (List (List ℚ) × List Chunk))
    (rag1 rag2 : ContractRAG)
    (hnone : rag.embedding_manager.index = none)
    (hbuild : ragB.build_knowledge_base encode dir = .ok rag1)
    (hload : ragL.load_knowledge_base stored = .ok rag2) :
    rag.embedding_manager.search encode query k = .error notBuiltMsg ∧
    rag.answer_question encode qa question k2 = .error notBuiltMsg ∧
    rag1.embedding_manager.search encode query k ≠ .error notBuiltMsg ∧
    rag2.embedding_manager.search encode query k ≠ .error notBuiltMsg := by
  have hs : ∀ (q : PyStr) (kk : Nat),
      rag.embedding_manager.search encode q kk = .error notBuiltMsg := by
    intro q kk
    unfold EmbeddingManager.search
    rw [hnone]
  refine ⟨hs query k, ?_, ?_, ?_⟩
  · simp only [ContractRAG.answer_question, ContractRAG.retrieve_context,
      Option.getD_some, hs question k2]
  · obtain ⟨vecs, hv⟩ := build_sets_index encode ragB dir rag1 hbuild
    exact search_some_ne_notBuilt encode _ query k vecs hv
  · obtain ⟨vecs, hv⟩ := load_sets_index ragL stored rag2 hload
    exact search_some_ne_notBuilt encode _ query k vecs hv

/-- C4: `answer_question` does not surface query-time soft failures as
exceptions: an empty retrieved context yields the fixed
no-relevant-information answer with confidence 0.0 and empty sources and
context, and a failing QA step yields a result whose `answer` embeds the
failure message with confidence 0.0, rather than raising. -/
theorem answer_question_soft_failures (encode : PyStr → List ℚ)
    (qa1 qa2 : PyStr → PyStr → Except PyStr (PyStr × ℚ))
    (ragA ragB : ContractRAG) (qA qB : PyStr) (kA kB : Nat)
    (rs : List SearchResult) (e : PyStr)
    (h1 : ragA.retrieve_context encode qA (some kA) = .ok [])
    (h2 : ragB.retrieve_context encode qB (some kB) = .ok rs)
    (hne : rs ≠ [])
    (hqa : qa2 qB (joinContext rs) = .error e) :
    ragA.answer_question encode qa1 qA kA = .ok noRelevantAnswer ∧
    ragB.answer_question encode qa2 qB kB = .ok (qaErrorAnswer e) := by
  constructor
  · simp only [ContractRAG.answer_question, h1]
    simp [synthesize]
  · simp only [ContractRAG.answer_question, h2]
    unfold synthesize
    rw [if_neg (by simpa using hne), hqa]

theorem pyGet_neg_one {α : Type} (l : List α) (hl : l ≠ []) :
    pyGet l (-1) = some (l.getLast hl) := by
  have hlen : 0 < l.length := List.length_pos.mpr hl
  unfold pyGet pyGetAux
  rw [if_pos (show (-1 : Int) < 0 from by norm_num)]
  rw [if_neg (show ¬((l.length : Int) + (-1) < 0) from by omega)]
  rw [show ((l.length : Int) + (-1)).toNat = l.length - 1 from by omega]
  rw [List.getElem?_eq_getElem (by omega), List.getLast_eq_getElem]

theorem faissSearch_length (vecs : List (List ℚ)) (q : List ℚ) (k : Nat) :
    (faissSearch vecs q k).length = k := by
  unfold faissSearch
  rw [List.length_append, List.length_map, List.length_take,
    List.length_replicate, List.length_insertionSort, List.enum_length,
    List.length_map]
  omega

theorem faissSearch_getElem?_pad (vecs : List (List ℚ)) (q : List ℚ)
    (k i : Nat) (h1 : vecs.length ≤ i) (h2 : i < k) :
    (faissSearch vecs q k)[i]? = some ((-1 : Int), (none : Option ℚ)) := by
  unfold faissSearch
  have hfl : (((List.insertionSort distRel (vecs.map (sqL2 q)).enum).take k).map
      (fun p => ((p.1 : Int), some p.2))).length = min k vecs.length := by
    rw [List.length_map, List.length_take, List.length_insertionSort,
      List.enum_length, List.length_map]
  rw [List.getElem?_append_right (by rw [hfl]; omega)]
  rw [hfl]
  rw [List.getElem?_replicate]
  rw [if_pos (by omega)]

/-- C10: `search` reads each result's metadata with a raw Python list
subscription on the library-returned index, with no bounds or sign
check; when `top_k` exceeds the number of stored vectors the library
pads the tail positions with sentinel index `-1`, and `search` silently
returns the last stored chunk's metadata in each of those positions
(with the padding similarity) instead of raising an error or omitting
them, still yielding `top_k` results. -/
theorem search_sentinel_wraps_to_last (encode : PyStr → List ℚ)
    (em : EmbeddingManager) (query : PyStr) (k : Nat)
    (vecs : List (List ℚ)) (rs : List SearchResult)
    (hidx : em.index = some vecs) (h : em.search encode query k = .ok rs)
    (hk : vecs.length < k) (hmd : em.metadata ≠ []) :
    rs.length = k ∧
    ∀ i : Nat, vecs.length ≤ i → ∀ r : SearchResult, rs[i]? = some r →
      r = mkSearchResult (em.metadata.getLast hmd) none := by
  have hb := search_ok_elim encode em query k vecs rs hidx h
  have f2 := buildResults_forall2 _ _ _ hb
  have hlen : rs.length = k := by
    rw [← f2.length_eq, faissSearch_length]
  refine ⟨hlen, ?_⟩
  intro i hi r hr
  have hik : i < rs.length := by
    obtain ⟨hh, _⟩ := List.getElem?_eq_some_iff.mp hr
    exact hh
  have hik2 : i < (faissSearch vecs (encode query) k).length := by
    rw [faissSearch_length]
    omega
  have hpad := faissSearch_getElem?_pad vecs (encode query) k i hi (by omega)
  have hgetr : rs.get ⟨i, hik⟩ = r := by
    rw [List.getElem?_eq_getElem hik] at hr
    exact Option.some_inj.mp hr
  have hgetp : (faissSearch vecs (encode query) k).get ⟨i, hik2⟩ =
      ((-1 : Int), (none : Option ℚ)) := by
    rw [List.getElem?_eq_getElem hik2] at hpad
    exact Option.some_inj.mp hpad
  have hrel := f2.get hik2 hik
  rw [hgetp, hgetr] at hrel
  simp only [resultRel] at hrel
  obtain ⟨c, hc, hre⟩ := hrel
  rw [pyGet_neg_one em.metadata hmd] at hc
  rw [hre, Option.some_inj.mp hc]

theorem retrieve_context_filters_and_threshold_witness :
    ragHigh.embedding_manager.search encLen ("q".toList)
        ((none : Option Nat).getD ragHigh.config.top_k) = .ok rsTwoW ∧
    ragHigh.retrieve_context encLen ("q".toList) none = .ok [] :=
  ⟨by decide,
   (retrieve_context_filters_and_threshold encLen ragHigh ("q".toList) none
      rsTwoW (by decide)).2 rfl⟩

theorem search_similarity_spec_witness :
    emTwo.search encLen ("q".toList) 2 = .ok rsTwoW ∧
    List.Pairwise (fun a b => b.similarity ≤ a.similarity) rsTwoW :=
  ⟨by decide,
   (search_similarity_spec encLen emTwo ("q".toList) 2 [[2], [3]] rsTwoW rfl
      (by decide)).2⟩

theorem not_built_behaviour_witness :
    (ContractRAG.init cfgW).embedding_manager.search encLen ("q".toList) 2 =
      .error notBuiltMsg ∧
    (ContractRAG.init cfgW).answer_question encLen qaOk ("q".toList) 3 =
      .error notBuiltMsg ∧
    ragBuiltW.embedding_manager.search encLen ("q".toList) 2 ≠
      .error notBuiltMsg ∧
    ragLoadedW.embedding_manager.search encLen ("q".toList) 2 ≠
      .error notBuiltMsg :=
  not_built_behaviour encLen qaOk (ContractRAG.init cfgW)
    (ContractRAG.init cfgW) (ContractRAG.init cfgW) ("q".toList) ("q".toList)
    2 3 dirW (some ([[7]], [⟨"x".toList, "s.txt", 0⟩])) ragBuiltW ragLoadedW
    rfl (by decide) (by decide)

theorem answer_question_soft_failures_witness :
    ragHigh.retrieve_context encLen ("q".toList) (some 2) = .ok [] ∧
    ragFive.retrieve_context encLen ("q".toList) (some 2) = .ok rsTwoW ∧
    ragHigh.answer_question encLen qaOk ("q".toList) 2 = .ok noRelevantAnswer ∧
    ragFive.answer_question encLen qaBoom ("q".toList) 2 =
      .ok (qaErrorAnswer ("boom".toList)) :=
  ⟨by decide, by decide,
   (answer_question_soft_failures encLen qaOk qaBoom ragHigh ragFive
      ("q".toList) ("q".toList) 2 2 rsTwoW ("boom".toList) (by decide)
      (by decide) (by decide) rfl).1,
   (answer_question_soft_failures encLen qaOk qaBoom ragHigh ragFive
      ("q".toList) ("q".toList) 2 2 rsTwoW ("boom".toList) (by decide)
      (by decide) (by decide) rfl).2⟩

/-- C7 counterexample: on a directory holding one present-but-unreadable
`.txt` file, `load_documents` skips the file without raising, so
`build_knowledge_base` raises no no-documents error and replaces the
previously built in-memory index and metadata with fresh empty ones. -/
theorem build_unreadable_counterexample :
    ContractRAG.build_knowledge_base encLen ragPrior ⟨true, [⟨"u.txt", none⟩]⟩ =
      .ok ⟨⟨4, 2, 5, 0⟩, ⟨4, 2⟩, ⟨some [], []⟩⟩ ∧
    (⟨some [], []⟩ : EmbeddingManager) ≠ ragPrior.embedding_manager :=
  ⟨by decide, by decide⟩

/-- C7 (amended): when the data directory exists but holds no `.txt`
files at all, `build_knowledge_base` fails fast by propagating the
loader's file-not-found error; in this functional model the error result
carries no new instance state, so a previously built or loaded index and
metadata remain whatever they were.  (The claim's "no readable .txt
files" is wider than the code: present-but-unreadable files are skipped
without an error, see the counterexample.) -/
theorem build_no_txt_fails_fast (encode : PyStr → List ℚ)
    (rag : ContractRAG) (dir : Directory)
    (hex : dir.dirExists = true) (hempty : dir.txtFiles = []) :
    rag.build_knowledge_base encode dir =
      .error "FileNotFoundError: No .txt files found" := by
  unfold ContractRAG.build_knowledge_base DataProcessor.process_pipeline
    DataProcessor.load_documents
  rw [hex, hempty]
  rfl

theorem build_no_txt_fails_fast_witness :
    ContractRAG.build_knowledge_base encLen ragPrior ⟨true, []⟩ =
      .error "FileNotFoundError: No .txt files found" :=
  build_no_txt_fails_fast encLen ragPrior ⟨true, []⟩ rfl rfl

/-- C8 (amended): `answer_question` called without an explicit `top_k`
argument retrieves context with the hard-coded Python default
`top_k = 3` — not the configured `rag.top_k` — and with the configured
similarity threshold (applied inside `retrieve_context`). -/
theorem answer_question_default_is_three (encode : PyStr → List ℚ)
    (qa : PyStr → PyStr → Except PyStr (PyStr × ℚ)) (rag : ContractRAG)
    (question : PyStr) :
    rag.answer_question encode qa question =
      (rag.retrieve_context encode question (some 3)).map
        (synthesize qa question) := by
  unfold ContractRAG.answer_question
  cases h : rag.retrieve_context encode question (some 3) <;>
    simp [Except.map]

/-- C8 counterexample: on a concrete instance whose configured
`rag.top_k` is 5, `answer_question` without an explicit `top_k` builds
its answer from only 3 retrieved chunks, while retrieval with the
configured default yields 5 results, and the answer differs from the one
the claim prescribes. -/
theorem answer_question_default_counterexample :
    (ContractRAG.answer_question encLen qaOk ragFive ("q".toList)).map
        (fun r => r.context.length) = .ok 3 ∧
    (ContractRAG.retrieve_context encLen ragFive ("q".toList) none).map
        List.length = .ok 5 ∧
    ContractRAG.answer_question encLen qaOk ragFive ("q".toList) ≠
      (ContractRAG.retrieve_context encLen ragFive ("q".toList) none).map
        (synthesize qaOk ("q".toList)) :=
  ⟨by decide, by decide, by decide⟩

/-- C9 (amended): when the retrieved context is non-empty and the QA
step succeeds, the returned `sources` is the de-duplicated set of the
retrieved chunks' source filenames, and `context` holds one entry per
retrieved chunk in retrieval order whose text is the chunk's text
truncated to the first 200 characters *with `"..."` appended*, annotated
with its source and similarity. -/
theorem answer_question_output_shape (encode : PyStr → List ℚ)
    (qa : PyStr → PyStr → Except PyStr (PyStr × ℚ)) (rag : ContractRAG)
    (question : PyStr) (k : Nat) (rs : List SearchResult)
    (ans : PyStr) (score : ℚ) (r : AnswerResult)
    (hret : rag.retrieve_context encode question (some k) = .ok rs)
    (hne : rs ≠ [])
    (hqa : qa question (joinContext rs) = .ok (ans, score))
    (hr : rag.answer_question encode qa question k = .ok r) :
    r.answer = ans ∧ r.confidence = score ∧
    r.sources.Nodup ∧
    (∀ s : String, s ∈ r.sources ↔ s ∈ rs.map (·.source)) ∧
    r.context = rs.map (fun c =>
      (⟨c.text.take 200 ++ "...".toList, c.source, c.similarity⟩ :
        ContextEntry)) := by
  simp only [ContractRAG.answer_question, hret] at hr
  unfold synthesize at hr
  rw [if_neg (by simpa using hne), hqa] at hr
  simp only [Except.ok.injEq] at hr
  subst hr
  exact ⟨rfl, rfl, List.nodup_dedup _, fun s => List.mem_dedup, rfl⟩

theorem answer_question_output_shape_witness :
    ragFive.answer_question encLen qaOk ("q".toList) 2 = .ok rW ∧
    rW.sources.Nodup ∧
    rW.context = rsTwoW.map (fun c =>
      (⟨c.text.take 200 ++ "...".toList, c.source, c.similarity⟩ :
        ContextEntry)) :=
  ⟨by decide,
   (answer_question_output_shape encLen qaOk ragFive ("q".toList) 2 rsTwoW
      ("ans".toList) 1 rW (by decide) (by decide) rfl (by decide)).2.2.1,
   (answer_question_output_shape encLen qaOk ragFive ("q".toList) 2 rsTwoW
      ("ans".toList) 1 rW (by decide) (by decide) rfl (by decide)).2.2.2.2⟩

/-- C9 counterexample: the context entry built for the retrieved chunk
"abc" has text `"abc..."`, not the plain truncation `"abc"` the claim
describes — the code appends an ellipsis to the 200-character cut. -/
theorem answer_context_text_counterexample :
    (ContractRAG.answer_question encLen qaOk ragAbc ("q".toList) 1).map
        (fun r => r.context.map (fun e => e.text)) = .ok ["abc...".toList] ∧
    ("abc...".toList : PyStr) ≠ ("abc".toList : PyStr).take 200 :=
  ⟨by decide, by decide⟩

theorem search_sentinel_wraps_to_last_witness :
    emPad.search encLen ("q".toList) 3 = .ok rsPad ∧
    rsPad.length = 3 ∧
    mkSearchResult (⟨"B".toList, "fB", 1⟩ : Chunk) none =
      mkSearchResult (emPad.metadata.getLast (by decide)) none :=
  ⟨by decide,
   (search_sentinel_wraps_to_last encLen emPad ("q".toList) 3 [[2], [5]]
      rsPad rfl (by decide) (by decide) (by decide)).1,
   (search_sentinel_wraps_to_last encLen emPad ("q".toList) 3 [[2], [5]]
      rsPad rfl (by decide) (by decide) (by decide)).2 2 (by decide)
      (mkSearchResult (⟨"B".toList, "fB", 1⟩ : Chunk) none) (by decide)⟩
